import Mathlib

/-!
Shallow embedding of the redundancy-descriptor subsystem of the SCR
(Scalable Checkpoint / Restart) library, translated from `src/scr_reddesc.c`.

Modelling conventions:
* C `int` values are `Int`; C truthiness (`if (x)`) is the test `x ≠ 0`.
* `SCR_SUCCESS` / `SCR_FAILURE` are the integers 0 / 1 of `scr.h`.
* The collective functions (`scr_reddesc_create_from_hash`,
  `scr_reddesc_apply`) are SPMD: every rank calls them with its own
  arguments.  A world of ranks is a `List` of per-rank argument records,
  and the model maps it to the `List` of per-rank results; `scr_alltrue`
  (an `MPI_Allreduce` with logical AND) is `List.all` over the ranks'
  local flags, and the `MPI_Allreduce` sum of the local byte counts is
  `List.sum`.
* Process-global state read by the C code (`scr_my_rank_world`,
  `scr_ranks_world`, `scr_cache_base`, the store and group registries,
  defaults, and the external `ER_Create_Scheme` and `spath` calls) is a
  per-rank environment record `Env` of oracle values and functions.
* `kvtree_util_get_*(hash, KEY, &v)` overwrites `v` only when KEY is
  present; the configuration hash is a record of `Option` fields and the
  reads are `Option.getD` with the C code's preset value as the default.
* Warnings are tracked as tags (`Warn`) emitted by the modelled rank, so
  that rank-0 gating of `scr_warn` calls is observable.
* Pointers that may be NULL are `Option`; C undefined behavior that the
  claims are about (modulo by zero in the selection loop) is modelled by
  an `Option` layer whose `none` marks the undefined evaluation.
-/

/-- Return code `SCR_SUCCESS` (0 in `scr.h`). -/
def SCR_SUCCESS : Int := 0

/-- Return code `SCR_FAILURE` (1 in `scr.h`). -/
def SCR_FAILURE : Int := 1

/-- The copy type enum: `SCR_COPY_NULL`, `SCR_COPY_SINGLE`,
`SCR_COPY_PARTNER`, `SCR_COPY_XOR`. -/
inductive CopyType where
  | null
  | single
  | partner
  | xor
  deriving DecidableEq

/-- The `scr_reddesc` struct: one redundancy descriptor.  `base` and
`directory` are `char*` fields that may be NULL. -/
structure Reddesc where
  enabled : Int
  index : Int
  interval : Int
  output : Int
  store_index : Int
  group_index : Int
  base : Option String
  directory : Option String
  copy_type : CopyType
  er_scheme : Int
  deriving DecidableEq

/-- `scr_reddesc_init` (lines 32-55): the descriptor state after
initialization, with every field cleared. -/
def scr_reddesc_init : Reddesc :=
  { enabled := 0, index := -1, interval := -1, output := -1,
    store_index := -1, group_index := -1, base := none, directory := none,
    copy_type := CopyType.null, er_scheme := -1 }

/-- Pair each element of a descriptor array with its index, starting at
`k`; `enumFrom 0 descs` models the array `descs[0..n-1]` with the C loop
index attached.  A returned index stands for the pointer `&descs[i]`. -/
def enumFrom : Nat → List Reddesc → List (Nat × Reddesc)
  | _, [] => []
  | k, d :: l => (k, d) :: enumFrom (k + 1) l

/-- The loop body chain of `scr_reddesc_for_checkpoint` (lines 85-95),
with the accumulator `interval` (the best interval so far, initially 0)
and `d` (the best index so far, initially NULL = `none`).  The guard is
the short-circuit conjunction
`descs[i].enabled && interval < descs[i].interval && id % descs[i].interval == 0`;
C `%` on `int` is truncated remainder, `Int.tmod`.  The outer `Option`
models C undefined behavior: its `none` means the loop evaluated a
modulo by zero. -/
def forCheckAux (id : Int) : List (Nat × Reddesc) → Int → Option Nat → Option (Option Nat)
  | [], _, best => some best
  | (i, d) :: rest, bestInterval, best =>
    if d.enabled ≠ 0 then
      if bestInterval < d.interval then
        if d.interval = 0 then
          none
        else if Int.tmod id d.interval = 0 then
          forCheckAux id rest d.interval (some i)
        else
          forCheckAux id rest bestInterval best
      else
        forCheckAux id rest bestInterval best
    else
      forCheckAux id rest bestInterval best

/-- `scr_reddesc_for_checkpoint` (lines 75-98): select a descriptor for
checkpoint `id` from the array `descs`.  `some (some i)` is the pointer
`&descs[i]`, `some none` is a NULL return, and the outer `none` marks an
undefined evaluation (modulo by zero) inside the loop. -/
def scr_reddesc_for_checkpoint (id : Int) (descs : List Reddesc) : Option (Option Nat) :=
  forCheckAux id (enumFrom 0 descs) 0 none

/-- A descriptor qualifying in the words of the claim: enabled, and its
interval evenly divides `id`. -/
def qualifiesSpec (id : Int) (d : Reddesc) : Prop :=
  d.enabled ≠ 0 ∧ d.interval ∣ id

/-- A descriptor qualifying as the code decides it: enabled, interval
positive, and the interval evenly divides `id`. -/
def qualifiesPos (id : Int) (d : Reddesc) : Prop :=
  d.enabled ≠ 0 ∧ 0 < d.interval ∧ d.interval ∣ id

/-- Invariant-style postcondition of `forCheckAux` on an indexed suffix
`l`, given the accumulator pair (`bint`, `best`): either nothing in `l`
beats the accumulated interval and the accumulator survives, or the
winner sits in `l`, beats `bint`, every positional predecessor that
qualifies has a strictly smaller interval and every positional successor
that qualifies has an interval no larger. -/
def SelPost (id : Int) (l : List (Nat × Reddesc)) (bint : Int) (best : Option Nat) (r : Option Nat) : Prop :=
  (r = best ∧ ∀ p ∈ l, qualifiesPos id p.2 → p.2.interval ≤ bint) ∨
  (∃ i d l1 l2, r = some i ∧ l = l1 ++ (i, d) :: l2 ∧ qualifiesPos id d ∧ bint < d.interval ∧
     (∀ p ∈ l1, qualifiesPos id p.2 → p.2.interval < d.interval) ∧
     (∀ p ∈ l2, qualifiesPos id p.2 → p.2.interval ≤ d.interval))

/-- The `scr_storedesc` struct, restricted to the field
`scr_reddesc_get_store` reads. -/
structure Storedesc where
  enabled : Int
  deriving DecidableEq

/-- Whether the store registry entry at (C `int`) index `i` exists and is
enabled. -/
def storeEnabledAt (stores : List Storedesc) (i : Int) : Bool :=
  match stores.get? i.toNat with
  | none => false
  | some s => s.enabled != 0

/-- `scr_reddesc_get_store` (lines 356-382): return the store descriptor
of a redundancy descriptor, or NULL.  `stores` is the registry array
`scr_storedescs` with `scr_nstoredescs = stores.length`. -/
def scr_reddesc_get_store (desc : Option Reddesc) (stores : List Storedesc) : Option Storedesc :=
  match desc with
  | none => none
  | some d =>
    if d.enabled = 0 then none
    else if d.store_index < 0 ∨ (stores.length : Int) ≤ d.store_index then none
    else
      match stores.get? d.store_index.toNat with
      | none => none
      | some store => if store.enabled = 0 then none else some store

/-- A group descriptor (`scr_groupdesc`), restricted to the fields the
builder reads: the group size and this process's rank in the group. -/
structure GroupDesc where
  ranks : Int
  rank : Int
  deriving DecidableEq

/-- The per-descriptor configuration subtree (a `kvtree`): each field is
`some v` when the key is present.  `kvtree_util_get_*` leaves the C
variable untouched when the key is absent. -/
structure ConfigHash where
  enabled : Option Int := none
  interval : Option Int := none
  output : Option Int := none
  store : Option String := none
  type : Option String := none
  set_size : Option Int := none
  group : Option String := none
  deriving DecidableEq

/-- A configuration hash with no keys set. -/
def emptyHash : ConfigHash := {}

/-- Warnings the builder can emit (`scr_warn` call sites), as tags.  The
store warnings (lines 248, 256) are emitted by whatever rank hits the
path; the copy-type warnings (lines 171, 283) and the forced-single
warning (line 298) are guarded by `scr_my_rank_world == 0`. -/
inductive Warn where
  | storeNotFound
  | storeParamMissing
  | unknownCopyTypeParse
  | unknownCopyTypeDesc
  | forcedSingle
  deriving DecidableEq

/-- A rank's view of the process-global state the builder reads.  The
external calls are oracles: `storeIndexFromName` is
`scr_storedescs_index_from_name`, `reducePath` is
`spath_strdup_reduce_str` (and the `spath` reduction used to build the
directory), `groupFromName` is `scr_groupdescs_from_name`, and
`erCreateScheme ranks k` is `ER_Create_Scheme` on the world communicator
(the communicator and the broadcast failure-domain string are absorbed
into the oracle, which returns the scheme handle, −1 on failure).
`junkCopyType` is the indeterminate stack value that
`scr_reddesc_type_int_from_str` stores through `*type` on its failure
path, where the C local `copy_type` is never assigned. -/
structure Env where
  myRank : Int
  ranksWorld : Int
  cacheBase : Option String
  storeIndexFromName : String → Int
  reducePath : String → String
  username : String
  jobid : String
  setSizeDefault : Int
  copyTypeDefault : CopyType
  groupDefault : String
  groupFromName : String → Option GroupDesc
  erCreateScheme : Int → Int → Int
  junkCopyType : CopyType

/-- ASCII `tolower` on a character code: uppercase letters are shifted
into the lowercase range, everything else is untouched. -/
def charLowerCode (c : Char) : Nat :=
  if 65 ≤ c.toNat ∧ c.toNat ≤ 90 then c.toNat + 32 else c.toNat

/-- `strcasecmp(a, b) == 0`: ASCII case-insensitive string equality,
compared byte-wise through `tolower` as `strcasecmp` does. -/
def eqCaseInsensitive (a b : String) : Bool :=
  a.data.map charLowerCode == b.data.map charLowerCode

/-- `scr_reddesc_type_int_from_str` (lines 158-180): parse a copy-type
string.  Returns the return code, the value stored through `*type`
(indeterminate on failure), and the rank-0 warning of line 171. -/
def scr_reddesc_type_int_from_str (env : Env) (value : String) : Int × CopyType × List Warn :=
  if eqCaseInsensitive value "SINGLE" then (SCR_SUCCESS, CopyType.single, [])
  else if eqCaseInsensitive value "PARTNER" then (SCR_SUCCESS, CopyType.partner, [])
  else if eqCaseInsensitive value "XOR" then (SCR_SUCCESS, CopyType.xor, [])
  else (SCR_FAILURE, env.junkCopyType,
        if env.myRank = 0 then [Warn.unknownCopyTypeParse] else [])

/-- Result of the store-resolution block. -/
structure StoreResolveResult where
  base : Option String
  store_index : Int
  ok : Bool
  warns : List Warn

/-- Lines 233-259: resolve the STORE name.  `base` starts as
`scr_cache_base` and is overwritten when the STORE key is present; a
non-NULL base is path-reduced and looked up in the store registry, and a
failed lookup (or a NULL base) disables the descriptor with a warning
that is not rank-0 guarded. -/
def storeResolve (env : Env) (hash : ConfigHash) : StoreResolveResult :=
  match (match hash.store with | some s => some s | none => env.cacheBase) with
  | some b =>
    let red := env.reducePath b
    let si := env.storeIndexFromName red
    if 0 ≤ si then { base := some red, store_index := si, ok := true, warns := [] }
    else { base := some red, store_index := -1, ok := false, warns := [Warn.storeNotFound] }
  | none => { base := none, store_index := -1, ok := false, warns := [Warn.storeParamMissing] }

/-- Result of the copy-type block. -/
structure TypeResolveResult where
  parsed : CopyType
  ok : Bool
  warns : List Warn

/-- Lines 274-288: read the TYPE key.  Absent TYPE keeps the global
default `scr_copy_type`; an unrecognized value disables the descriptor,
stores the parser's indeterminate value, and warns on rank 0 (a second
time, line 283). -/
def typeResolve (env : Env) (hash : ConfigHash) : TypeResolveResult :=
  match hash.type with
  | none => { parsed := env.copyTypeDefault, ok := true, warns := [] }
  | some s =>
    match scr_reddesc_type_int_from_str env s with
    | (rc, t, w) =>
      if rc = SCR_SUCCESS then { parsed := t, ok := true, warns := w }
      else { parsed := t, ok := false,
             warns := w ++ (if env.myRank = 0 then [Warn.unknownCopyTypeDesc] else []) }

/-- Result of the single-node force block. -/
structure ForceResult where
  final : CopyType
  warns : List Warn

/-- Lines 290-304: if the NODE failure group spans the whole world, force
the copy type to SINGLE, warning on rank 0 exactly when that changed the
type. -/
def forceSingle (env : Env) (t : CopyType) : ForceResult :=
  match env.groupFromName "NODE" with
  | some g =>
    if g.ranks = env.ranksWorld then
      { final := CopyType.single,
        warns := if env.myRank = 0 ∧ t ≠ CopyType.single then [Warn.forcedSingle] else [] }
    else { final := t, warns := [] }
  | none => { final := t, warns := [] }

/-- Lines 323-336: the arguments `(scr_ranks_world, k)` the switch on the
copy type passes to `ER_Create_Scheme`, or `none` when no case matches
(`SCR_COPY_NULL`) and no call is made. -/
def erRequest (world : Int) (t : CopyType) : Option (Int × Int) :=
  match t with
  | CopyType.single => some (world, 0)
  | CopyType.partner => some (world, world)
  | CopyType.xor => some (world, 1)
  | CopyType.null => none

/-- The scheme handle resulting from the switch: the oracle's answer to
the request, or the initial −1 when no call was made. -/
def erSchemeOf (env : Env) (req : Option (Int × Int)) : Int :=
  match req with
  | some (r, k) => env.erCreateScheme r k
  | none => -1

/-- The final `enabled` value: the ENABLED key (default 1, line 219-220)
survives exactly when no disable path fired.  The C code zeroes
`d->enabled` at lines 247, 255, 281 and 343; since nothing reads the
field in between, the cumulative effect is this conjunction. -/
def finalEnabled (hash : ConfigHash) (ok : Bool) : Int :=
  if ok then hash.enabled.getD 1 else 0

/-- What one rank's run of the builder body (lines 215-344, after the
argument consensus and before the final enabled consensus) produced:
the descriptor, the warnings emitted, the `ER_Create_Scheme` request
made, and the copy type just before the single-node force (the value
the TYPE configuration produced). -/
structure BuildTrace where
  desc : Reddesc
  warns : List Warn
  erReq : Option (Int × Int)
  typeBeforeForce : CopyType

/-- One rank's builder body, lines 215-344 of
`scr_reddesc_create_from_hash`: everything between the argument
consensus and the final enabled consensus.  The SET_SIZE key is read
(lines 270-272) but the switch below passes the constant 1 for XOR, so
the value does not reach `ER_Create_Scheme`.  The GROUP key and the
failure-domain broadcast (lines 306-321) only feed the
`ER_Create_Scheme` call and are absorbed into the `erCreateScheme`
oracle. -/
def scr_reddesc_build_local (env : Env) (index : Int) (hash : ConfigHash) : BuildTrace :=
  let sr := storeResolve env hash
  let dir := env.reducePath ((sr.base.getD "") ++ "/" ++ env.username ++ "/scr." ++ env.jobid)
  let _set_size := hash.set_size.getD env.setSizeDefault
  let tr := typeResolve env hash
  let fs := forceSingle env tr.parsed
  let req := erRequest env.ranksWorld fs.final
  let scheme := erSchemeOf env req
  { desc := { enabled := finalEnabled hash (sr.ok && tr.ok && (scheme != -1)),
              index := index,
              interval := hash.interval.getD 1,
              output := hash.output.getD 0,
              store_index := sr.store_index,
              group_index := -1,
              base := sr.base,
              directory := some dir,
              copy_type := fs.final,
              er_scheme := scheme },
    warns := sr.warns ++ tr.warns ++ fs.warns,
    erReq := req,
    typeBeforeForce := tr.parsed }

/-- One rank's arguments to `scr_reddesc_create_from_hash`: its
environment, the descriptor pointer (`none` = NULL pointer, `some d` =
pointer to caller memory holding `d`), and the hash pointer. -/
structure RankArgs where
  env : Env
  dIn : Option Reddesc
  hash : Option ConfigHash

/-- One rank's observable outcome of `scr_reddesc_create_from_hash`: the
return code, the memory its descriptor pointer holds on return (`none`
when the pointer was NULL), the warnings, the `ER_Create_Scheme`
request, and the pre-force copy type (`none` when construction never
ran). -/
structure RankResult where
  rc : Int
  dOut : Option Reddesc
  warns : List Warn
  erReq : Option (Int × Int)
  typeBeforeForce : Option CopyType
  deriving Inhabited

/-- `scr_alltrue` over the world: `MPI_Allreduce` with logical AND of
every rank's local flag. -/
def scr_alltrue (bs : List Bool) : Bool :=
  bs.all (fun b => b)

/-- `scr_reddesc_create_from_hash` (lines 184-352) over the whole world
of ranks.  First the argument consensus (lines 191-213): if any rank got
a NULL descriptor or hash, every rank zeroes `enabled` through a
non-NULL descriptor pointer and returns `SCR_FAILURE`.  Otherwise every
rank builds locally and the final consensus (lines 346-349) zeroes
`enabled` everywhere unless every rank's `enabled` is truthy; the return
value is then `SCR_SUCCESS` on every rank (line 351).  `buildTraces` is
every rank's local construction; the `getD emptyHash` in it is only a
total-function artifact: under the argument consensus every rank's hash
is `some`. -/
def buildTraces (args : List RankArgs) (index : Int) : List BuildTrace :=
  args.map (fun a => scr_reddesc_build_local a.env index (a.hash.getD emptyHash))

/-- The final enabled consensus (lines 346-349): `scr_alltrue` of every
rank's local `d->enabled`. -/
def createConsensus (args : List RankArgs) (index : Int) : Bool :=
  scr_alltrue ((buildTraces args index).map (fun t => t.desc.enabled != 0))

/-- `scr_reddesc_create_from_hash` over the whole world of ranks: the
argument consensus, then the local construction and the final enabled
consensus; see the comment on `buildTraces`. -/
def scr_reddesc_create_from_hash (args : List RankArgs) (index : Int) : List RankResult :=
  if scr_alltrue (args.map (fun a => a.dIn.isSome && a.hash.isSome)) then
    (buildTraces args index).map (fun t =>
      { rc := SCR_SUCCESS,
        dOut := some (if createConsensus args index then t.desc else { t.desc with enabled := 0 }),
        warns := t.warns,
        erReq := t.erReq,
        typeBeforeForce := some t.typeBeforeForce })
  else
    args.map (fun a =>
      { rc := SCR_FAILURE,
        dOut := a.dIn.map (fun d => { d with enabled := 0 }),
        warns := [],
        erReq := none,
        typeBeforeForce := none })

/-- One file of the rank's filemap inside `scr_reddesc_apply`'s add loop
(lines 431-458): whether `scr_bool_have_file` accepts it, whether
`ER_Add` succeeds on it, and its on-disk size `scr_file_size`. -/
structure ApplyFile where
  haveFile : Bool
  addOk : Bool
  size : Nat
  deriving DecidableEq

/-- One rank's view of an `scr_reddesc_apply` run: its filemap files in
iteration order, the `ER_Add` outcome for the filemap file itself (lines
461-466), and the `ER_Dispatch` / `ER_Wait` / `ER_Free` outcomes.  The
CRC-on-copy branch only rewrites filemap metadata and is not modelled;
byte sizes are exact naturals (the C code accumulates them in a
double). -/
structure ApplyArgs where
  files : List ApplyFile
  mapfileAddOk : Bool
  dispatchOk : Bool
  waitOk : Bool
  freeOk : Bool
  deriving DecidableEq

/-- One rank's observable outcome of `scr_reddesc_apply`: the return
code, the value left in `*bytes` (zeroed on entry, line 403), whether
the rank invoked `ER_Dispatch`, and whether it freed the ER set. -/
structure ApplyResult where
  rc : Int
  bytes : Nat
  dispatched : Bool
  erFreed : Bool
  deriving DecidableEq

/-- The rank's `valid` flag at the global validity check (line 471):
starts at 1 and is zeroed when a filemap file is missing or incomplete
(line 441), when `ER_Add` fails on a file (line 447), or when `ER_Add`
fails on the filemap itself (line 465). -/
def applyValidLocal (a : ApplyArgs) : Bool :=
  (a.files.all (fun f => f.haveFile && f.addOk)) && a.mapfileAddOk

/-- The rank's `my_bytes` accumulation (line 451): every filemap file's
size is added, valid or not; the filemap file itself is not counted. -/
def applyMyBytes (a : ApplyArgs) : Nat :=
  (a.files.map (fun f => f.size)).sum

/-- `scr_reddesc_apply` (lines 396-534) over the whole world of ranks.
After the add loop, `scr_alltrue(valid)` decides: on dissent every rank
frees the set and returns `SCR_FAILURE` with `*bytes` still 0 (lines
470-478); otherwise every rank dispatches, waits and frees, the final
`scr_alltrue` turns any rank's failure into a global `SCR_FAILURE`
(lines 503-511), and `*bytes` becomes the world sum of the local byte
counts (line 514) on every rank, successful copy or not. -/
def scr_reddesc_apply (args : List ApplyArgs) : List ApplyResult :=
  if scr_alltrue (args.map applyValidLocal) then
    let total := (args.map applyMyBytes).sum
    let okCopy := scr_alltrue (args.map (fun a => a.dispatchOk && a.waitOk && a.freeOk))
    args.map (fun _ =>
      { rc := if okCopy then SCR_SUCCESS else SCR_FAILURE,
        bytes := total, dispatched := true, erFreed := true })
  else
    args.map (fun _ =>
      { rc := SCR_FAILURE, bytes := 0, dispatched := false, erFreed := true })

/-- A single enabled descriptor whose interval is −1, the value
`scr_reddesc_init` leaves in a fresh descriptor. -/
def C1cexDesc : Reddesc :=
  { enabled := 1, index := 0, interval := -1, output := 0, store_index := 0,
    group_index := 0, base := none, directory := none,
    copy_type := CopyType.single, er_scheme := 0 }

/-- Claim C1 as stated, at one input: the function returns the enabled
descriptor with the largest interval that evenly divides `id`, earliest
in the array on ties, and NULL exactly when no enabled descriptor's
interval divides `id`. -/
def C1Statement (id : Int) (descs : List Reddesc) : Prop :=
  ∃ r, scr_reddesc_for_checkpoint id descs = some r ∧
    (r = none → ∀ p ∈ enumFrom 0 descs, ¬ qualifiesSpec id p.2) ∧
    (∀ i, r = some i → ∃ d, (i, d) ∈ enumFrom 0 descs ∧ qualifiesSpec id d ∧
      (∀ p ∈ enumFrom 0 descs, qualifiesSpec id p.2 → p.2.interval ≤ d.interval) ∧
      (∀ p ∈ enumFrom 0 descs, qualifiesSpec id p.2 → p.1 < i → p.2.interval < d.interval))

/-- Claim C8 as stated, at one input: `scr_reddesc_get_store` returns a
non-NULL store exactly when the descriptor is enabled, its store index
is a valid registry index, its erasure scheme handle is nonnegative, and
the referenced store is enabled. -/
def C8Statement (d : Reddesc) (stores : List Storedesc) : Prop :=
  (scr_reddesc_get_store (some d) stores).isSome = true ↔
    (d.enabled ≠ 0 ∧ 0 ≤ d.store_index ∧ d.store_index < (stores.length : Int) ∧
     0 ≤ d.er_scheme ∧ storeEnabledAt stores d.store_index = true)

/-- A descriptor that is enabled with a valid store index but whose
erasure scheme handle is still −1 (never built). -/
def C8cexDesc : Reddesc :=
  { enabled := 1, index := 0, interval := 1, output := 0, store_index := 0,
    group_index := -1, base := none, directory := none,
    copy_type := CopyType.single, er_scheme := -1 }

/-- Claim C7 as stated, at one input: on return from
`scr_reddesc_apply`, `*bytes` equals the world sum of each rank's local
file-size accumulation. -/
def C7Statement (args : List ApplyArgs) : Prop :=
  ∀ res ∈ scr_reddesc_apply args, res.bytes = (args.map applyMyBytes).sum

/-- One rank whose only filemap file is incomplete (100 bytes on
disk). -/
def C7cexArgs : List ApplyArgs :=
  [ { files := [{ haveFile := false, addOk := true, size := 100 }],
      mapfileAddOk := true, dispatchOk := true, waitOk := true, freeOk := true } ]

/-- Two ranks, the first of which has an incomplete filemap file. -/
def C4args : List ApplyArgs :=
  [ { files := [{ haveFile := false, addOk := true, size := 100 }],
      mapfileAddOk := true, dispatchOk := true, waitOk := true, freeOk := true },
    { files := [{ haveFile := true, addOk := true, size := 50 }],
      mapfileAddOk := true, dispatchOk := true, waitOk := true, freeOk := true } ]


/-- A baseline two-rank environment for concrete instantiations:
path reduction is the identity, every store name resolves to index 0,
the NODE group has one member (no single-node force), and
`ER_Create_Scheme` returns handle 5. -/
def baseEnv : Env :=
  { myRank := 0, ranksWorld := 2, cacheBase := some "/dev/shm",
    storeIndexFromName := fun _ => 0, reducePath := fun s => s,
    username := "user", jobid := "42", setSizeDefault := 8,
    copyTypeDefault := CopyType.xor, groupDefault := "NODE",
    groupFromName := fun _ => some { ranks := 1, rank := 0 },
    erCreateScheme := fun _ _ => 5, junkCopyType := CopyType.null }

/-- A shared configuration for the consensus instantiation. -/
def C2hash : ConfigHash := { interval := some 2, type := some "XOR" }

/-- Rank 1's environment for the consensus instantiation: its
`ER_Create_Scheme` fails, so it disables its descriptor locally. -/
def C2envB : Env :=
  { baseEnv with
    myRank := 1
    erCreateScheme := fun _ _ => -1 }

/-- Two ranks with the same configuration; rank 1 disables locally. -/
def C2args : List RankArgs :=
  [ { env := baseEnv, dIn := some scr_reddesc_init, hash := some C2hash },
    { env := C2envB, dIn := some scr_reddesc_init, hash := some C2hash } ]

/-- An eight-rank-world environment with no NODE force. -/
def C3env : Env :=
  { baseEnv with
    groupFromName := fun _ => none
    ranksWorld := 8 }

/-- A configuration asking for XOR with SET_SIZE 4. -/
def C3hash : ConfigHash := { type := some "XOR", set_size := some 4 }

/-- Claim C3 as stated, at one input: when the built copy type is Xor,
the erasure scheme request carries the configured set size (the
SET_SIZE key, defaulting to the global default). -/
def C3Statement (env : Env) (index : Int) (hash : ConfigHash) : Prop :=
  (scr_reddesc_build_local env index hash).desc.copy_type = CopyType.xor →
    (scr_reddesc_build_local env index hash).erReq =
      some (env.ranksWorld, hash.set_size.getD env.setSizeDefault)

/-- Rank 0's environment for the unknown-store instantiation: no store
name resolves, and `ER_Create_Scheme` returns handle 7. -/
def C5env0 : Env :=
  { baseEnv with
    storeIndexFromName := fun _ => -1
    erCreateScheme := fun _ _ => 7 }

/-- Rank 1's environment for the unknown-store instantiation. -/
def C5env1 : Env := { C5env0 with myRank := 1 }

/-- Two ranks configured with a STORE that no rank can resolve. -/
def C5args : List RankArgs :=
  [ { env := C5env0, dIn := some scr_reddesc_init,
      hash := some { store := some "/no/such/path" } },
    { env := C5env1, dIn := some scr_reddesc_init,
      hash := some { store := some "/no/such/path" } } ]

/-- Claim C5, the part falsified by the code, at one input: when the
configured STORE cannot be resolved on any rank, every rank ends
disabled with no erasure scheme allocated (`er_scheme` still −1). -/
def C5Statement (args : List RankArgs) (index : Int) : Prop :=
  (∀ a ∈ args, ∃ s, (a.hash.getD emptyHash).store = some s ∧
      a.env.storeIndexFromName (a.env.reducePath s) < 0) →
    ∀ res ∈ scr_reddesc_create_from_hash args index,
      ∃ d, res.dOut = some d ∧ d.enabled = 0 ∧ d.er_scheme = -1

/-- Rank 0's environment for the single-node instantiation: the NODE
group spans the whole two-rank world and PARTNER is the default copy
type. -/
def C6env0 : Env :=
  { baseEnv with
    groupFromName := fun _ => some { ranks := 2, rank := 0 }
    copyTypeDefault := CopyType.partner }

/-- Rank 1's environment for the single-node instantiation. -/
def C6env1 : Env :=
  { C6env0 with
    myRank := 1
    groupFromName := fun _ => some { ranks := 2, rank := 1 } }

/-- Two ranks on one node, configured with no TYPE key. -/
def C6args : List RankArgs :=
  [ { env := C6env0, dIn := some scr_reddesc_init, hash := some emptyHash },
    { env := C6env1, dIn := some scr_reddesc_init, hash := some emptyHash } ]

/-! ## Theorems -/

/-- C truncated remainder is zero exactly on divisibility (also for a
zero divisor, where `tmod a 0 = a`). -/
theorem tmod_eq_zero_iff_dvd (a b : Int) : a.tmod b = 0 ↔ b ∣ a := by
  constructor
  · intro h
    have h2 := Int.tmod_add_tdiv a b
    rw [h, zero_add] at h2
    exact ⟨a.tdiv b, h2.symm⟩
  · intro ⟨c, hc⟩
    subst hc
    simp [Int.mul_tmod_right]

/-- Every index produced by `enumFrom k` is at least `k`. -/
theorem enumFrom_ge (l : List Reddesc) : ∀ (k : Nat), ∀ p ∈ enumFrom k l, k ≤ p.1 := by
  induction l with
  | nil => intro k p hp; simp [enumFrom] at hp
  | cons d l ih =>
    intro k p hp
    rcases List.mem_cons.mp hp with rfl | hp
    · exact le_refl k
    · exact Nat.le_of_succ_le (ih (k + 1) p hp)

/-- The indices produced by `enumFrom` are strictly increasing. -/
theorem enumFrom_pairwise (l : List Reddesc) : ∀ (k : Nat),
    (enumFrom k l).Pairwise (fun p q => p.1 < q.1) := by
  induction l with
  | nil => intro k; simp [enumFrom]
  | cons d l ih =>
    intro k
    refine List.Pairwise.cons ?_ (ih (k + 1))
    intro q hq
    have h := enumFrom_ge l (k + 1) q hq
    omega

/-- Membership in `enumFrom k l` is exactly an index-element pair of
`l`, shifted by `k`. -/
theorem mem_enumFrom (l : List Reddesc) : ∀ (k : Nat) (p : Nat × Reddesc),
    p ∈ enumFrom k l ↔ ∃ j : Nat, p.1 = k + j ∧ l.get? j = some p.2 := by
  induction l with
  | nil => intro k p; simp [enumFrom]
  | cons d l ih =>
    intro k p
    simp only [enumFrom, List.mem_cons, ih (k + 1)]
    constructor
    · rintro (rfl | ⟨j, h1, h2⟩)
      · exact ⟨0, by omega, rfl⟩
      · exact ⟨j + 1, by omega, by simpa using h2⟩
    · rintro ⟨j, h1, h2⟩
      cases j with
      | zero =>
        left
        obtain ⟨p1, p2⟩ := p
        have e2 : some d = some p2 := h2
        have e2d : p2 = d := by injection e2 with h; exact h.symm
        have e1 : p1 = k := by omega
        simp [e1, e2d]
      | succ j =>
        right
        exact ⟨j, by omega, by simpa using h2⟩

/-- Specialization of `mem_enumFrom` to `k = 0`: the pairs of
`enumFrom 0 descs` are exactly the array entries with their indices. -/
theorem mem_enumFrom_zero (descs : List Reddesc) (i : Nat) (d : Reddesc) :
    (i, d) ∈ enumFrom 0 descs ↔ descs.get? i = some d := by
  rw [mem_enumFrom]
  constructor
  · rintro ⟨j, h1, h2⟩
    obtain rfl : i = j := by omega
    exact h2
  · intro h
    exact ⟨i, by omega, h⟩

/-- The selection loop never performs a modulo by zero and satisfies the
accumulator invariant `SelPost`, for any accumulator with a nonnegative
best interval. -/
theorem forCheckAux_spec (id : Int) (l : List (Nat × Reddesc)) :
    ∀ (bint : Int) (best : Option Nat), 0 ≤ bint →
    ∃ r, forCheckAux id l bint best = some r ∧ SelPost id l bint best r := by
  induction l with
  | nil =>
    intro bint best _
    exact ⟨best, rfl, Or.inl ⟨rfl, by intro p hp; simp at hp⟩⟩
  | cons q rest ih =>
    obtain ⟨j, e⟩ := q
    intro bint best hb
    by_cases h1 : e.enabled = 0
    · obtain ⟨r, hr, hpost⟩ := ih bint best hb
      refine ⟨r, by simpa [forCheckAux, h1] using hr, ?_⟩
      rcases hpost with ⟨hrb, hall⟩ | ⟨i, d, l1, l2, hri, hdec, hq, hgt, hpre, hsuf⟩
      · refine Or.inl ⟨hrb, ?_⟩
        intro p hp hqp
        rcases List.mem_cons.mp hp with rfl | hp
        · exact absurd hqp.1 (by simp [h1])
        · exact hall p hp hqp
      · refine Or.inr ⟨i, d, (j, e) :: l1, l2, hri, by simp [hdec], hq, hgt, ?_, hsuf⟩
        intro p hp hqp
        rcases List.mem_cons.mp hp with rfl | hp
        · exact absurd hqp.1 (by simp [h1])
        · exact hpre p hp hqp
    · by_cases h2 : bint < e.interval
      · have h0 : ¬ e.interval = 0 := by omega
        by_cases h3 : Int.tmod id e.interval = 0
        · have hpos : (0 : Int) < e.interval := by omega
          obtain ⟨r, hr, hpost⟩ := ih e.interval (some j) (le_of_lt hpos)
          refine ⟨r, by simpa [forCheckAux, h1, h2, h0, h3] using hr, ?_⟩
          have hqe : qualifiesPos id e :=
            ⟨h1, hpos, (tmod_eq_zero_iff_dvd id e.interval).mp h3⟩
          rcases hpost with ⟨hrb, hall⟩ | ⟨i, d, l1, l2, hri, hdec, hq, hgt, hpre, hsuf⟩
          · exact Or.inr ⟨j, e, [], rest, hrb, by simp, hqe, h2, by simp, hall⟩
          · refine Or.inr ⟨i, d, (j, e) :: l1, l2, hri, by simp [hdec], hq,
              lt_trans h2 hgt, ?_, hsuf⟩
            intro p hp hqp
            rcases List.mem_cons.mp hp with rfl | hp
            · exact hgt
            · exact hpre p hp hqp
        · obtain ⟨r, hr, hpost⟩ := ih bint best hb
          have hne : ¬ qualifiesPos id e := by
            intro hqp
            exact h3 ((tmod_eq_zero_iff_dvd id e.interval).mpr hqp.2.2)
          refine ⟨r, by simpa [forCheckAux, h1, h2, h0, h3] using hr, ?_⟩
          rcases hpost with ⟨hrb, hall⟩ | ⟨i, d, l1, l2, hri, hdec, hq, hgt, hpre, hsuf⟩
          · refine Or.inl ⟨hrb, ?_⟩
            intro p hp hqp
            rcases List.mem_cons.mp hp with rfl | hp
            · exact absurd hqp hne
            · exact hall p hp hqp
          · refine Or.inr ⟨i, d, (j, e) :: l1, l2, hri, by simp [hdec], hq, hgt, ?_, hsuf⟩
            intro p hp hqp
            rcases List.mem_cons.mp hp with rfl | hp
            · exact absurd hqp hne
            · exact hpre p hp hqp
      · obtain ⟨r, hr, hpost⟩ := ih bint best hb
        refine ⟨r, by simpa [forCheckAux, h1, h2] using hr, ?_⟩
        have hle : e.interval ≤ bint := by omega
        rcases hpost with ⟨hrb, hall⟩ | ⟨i, d, l1, l2, hri, hdec, hq, hgt, hpre, hsuf⟩
        · refine Or.inl ⟨hrb, ?_⟩
          intro p hp hqp
          rcases List.mem_cons.mp hp with rfl | hp
          · exact hle
          · exact hall p hp hqp
        · refine Or.inr ⟨i, d, (j, e) :: l1, l2, hri, by simp [hdec], hq, hgt, ?_, hsuf⟩
          intro p hp hqp
          rcases List.mem_cons.mp hp with rfl | hp
          · exact lt_of_le_of_lt hle hgt
          · exact hpre p hp hqp

/-- Claim C1 (amended): for every checkpoint id and array of descriptors,
`scr_reddesc_for_checkpoint` performs no undefined evaluation and
returns the enabled descriptor with the largest *positive* interval that
evenly divides `id` (the earliest in the array when intervals tie), and
NULL when no enabled descriptor has a positive interval dividing `id`.
A descriptor with interval ≤ 0 never qualifies, because the loop only
considers intervals strictly above the running best, which starts at
0. -/
theorem scr_reddesc_for_checkpoint_selects_max (id : Int) (descs : List Reddesc) :
    ∃ r, scr_reddesc_for_checkpoint id descs = some r ∧
      (r = none → ∀ p ∈ enumFrom 0 descs, ¬ qualifiesPos id p.2) ∧
      (∀ i, r = some i → ∃ d, (i, d) ∈ enumFrom 0 descs ∧ qualifiesPos id d ∧
        (∀ p ∈ enumFrom 0 descs, qualifiesPos id p.2 → p.2.interval ≤ d.interval) ∧
        (∀ p ∈ enumFrom 0 descs, qualifiesPos id p.2 → p.1 < i → p.2.interval < d.interval)) := by
  obtain ⟨r, hr, hpost⟩ := forCheckAux_spec id (enumFrom 0 descs) 0 none (le_refl 0)
  refine ⟨r, hr, ?_, ?_⟩
  · intro hrn p hp hqp
    rcases hpost with ⟨_, hall⟩ | ⟨i, d, l1, l2, hri, _, _, _, _, _⟩
    · have h1 := hall p hp hqp
      have h2 := hqp.2.1
      omega
    · rw [hrn] at hri
      cases hri
  · intro i hri2
    rcases hpost with ⟨hrb, _⟩ | ⟨i', d, l1, l2, hri, hdec, hq, _, hpre, hsuf⟩
    · rw [hrb] at hri2
      cases hri2
    · rw [hri] at hri2
      obtain rfl : i' = i := Option.some.inj hri2
      refine ⟨d, ?_, hq, ?_, ?_⟩
      · rw [hdec]
        exact List.mem_append.mpr (Or.inr (List.mem_cons_self _ _))
      · intro p hp hqp
        rw [hdec] at hp
        rcases List.mem_append.mp hp with hp1 | hp2
        · exact le_of_lt (hpre p hp1 hqp)
        · rcases List.mem_cons.mp hp2 with rfl | hp2
          · exact le_refl _
          · exact hsuf p hp2 hqp
      · intro p hp hqp hlt
        have hpw := enumFrom_pairwise descs 0
        rw [hdec] at hpw hp
        rcases List.mem_append.mp hp with hp1 | hp2
        · exact hpre p hp1 hqp
        · rcases List.mem_cons.mp hp2 with rfl | hp2
          · omega
          · obtain ⟨_, hmid, _⟩ := List.pairwise_append.mp hpw
            obtain ⟨hhead, _⟩ := List.pairwise_cons.mp hmid
            have := hhead p hp2
            omega

/-- Claim C10: the selection loop evaluates `id % interval` only behind
the guard `interval < descs[i].interval` with the running best starting
at 0, so no modulo by zero is ever performed (the model returns `some`,
never the undefined marker), and any selected descriptor has interval
≥ 1 — a freshly initialized descriptor (interval −1) or a zero interval
is never selected, for every id and every descriptor array. -/
theorem scr_reddesc_for_checkpoint_no_modulo_zero (id : Int) (descs : List Reddesc) :
    ∃ r, scr_reddesc_for_checkpoint id descs = some r ∧
      ∀ i, r = some i → ∃ d, (i, d) ∈ enumFrom 0 descs ∧ 1 ≤ d.interval := by
  obtain ⟨r, hr, hpost⟩ := forCheckAux_spec id (enumFrom 0 descs) 0 none (le_refl 0)
  refine ⟨r, hr, ?_⟩
  intro i hri
  rcases hpost with ⟨hrb, _⟩ | ⟨i', d, l1, l2, hri', hdec, hq, _, _, _⟩
  · rw [hrb] at hri
    cases hri
  · rw [hri'] at hri
    obtain rfl : i' = i := Option.some.inj hri
    refine ⟨d, ?_, hq.2.1⟩
    rw [hdec]
    exact List.mem_append.mpr (Or.inr (List.mem_cons_self _ _))

/-- Claim C1, counterexample: on the array holding one enabled
descriptor with interval −1 and id 1, the enabled descriptor's interval
−1 evenly divides 1, yet the function returns NULL — the claim's "for
every array of descriptors ... if no descriptor is enabled with an
interval dividing id, it returns none" is violated, because the code
additionally requires the interval to be positive. -/
theorem C1_counterexample : ¬ C1Statement 1 [C1cexDesc] := by
  intro ⟨r, hr, hnone, _⟩
  have hv : scr_reddesc_for_checkpoint 1 [C1cexDesc] = some none := rfl
  rw [hv] at hr
  obtain rfl : (none : Option Nat) = r := Option.some.inj hr
  exact hnone rfl (0, C1cexDesc) (by simp [enumFrom])
    ⟨by decide, ⟨-1, by decide⟩⟩

/-- Claim C8 (amended): `scr_reddesc_get_store` returns a non-NULL store
descriptor if and only if the redundancy descriptor is enabled, its
store index is a valid nonnegative index into the registry, and the
referenced store descriptor is enabled.  The erasure scheme handle is
not consulted by the function. -/
theorem scr_reddesc_get_store_iff (d : Reddesc) (stores : List Storedesc) :
    (scr_reddesc_get_store (some d) stores).isSome = true ↔
      (d.enabled ≠ 0 ∧ 0 ≤ d.store_index ∧ d.store_index < (stores.length : Int) ∧
       storeEnabledAt stores d.store_index = true) := by
  unfold scr_reddesc_get_store storeEnabledAt
  dsimp only
  split_ifs with h1 h2
  · simp [h1]
  · constructor
    · intro h
      simp at h
    · intro ⟨_, hge, hlt, _⟩
      omega
  · cases hg : stores.get? d.store_index.toNat with
    | none =>
      constructor
      · intro h
        simp at h
      · intro ⟨_, _, _, hs⟩
        simp at hs
    | some s =>
      by_cases hs : s.enabled = 0
      · constructor
        · intro h
          simp [hs] at h
        · intro ⟨_, _, _, hen⟩
          simp [hs] at hen
      · constructor
        · intro _
          exact ⟨h1, by omega, by omega, by simp [hs]⟩
        · intro _
          simp [hs]

/-- Claim C8, counterexample: a descriptor that is enabled, has a valid
store index pointing at an enabled store, but whose erasure scheme
handle is −1, still gets a non-NULL store from
`scr_reddesc_get_store` — the function never checks `er_scheme`, so the
claimed equivalence fails. -/
theorem C8_counterexample : ¬ C8Statement C8cexDesc [{ enabled := 1 }] := by
  unfold C8Statement
  decide

/-- Claim C4: if any rank's local validity flag is cleared before
dispatch (an incomplete filemap file or a failed `ER_Add`, on any rank),
then after the global validity reduction no rank invokes `ER_Dispatch`:
every rank frees the erasure set and returns `SCR_FAILURE`. -/
theorem scr_reddesc_apply_no_dispatch (args : List ApplyArgs)
    (h : ∃ a ∈ args, applyValidLocal a = false) :
    ∀ res ∈ scr_reddesc_apply args,
      res.dispatched = false ∧ res.rc = SCR_FAILURE ∧ res.erFreed = true := by
  have hg : ¬ scr_alltrue (args.map applyValidLocal) = true := by
    obtain ⟨a, ha, hv⟩ := h
    unfold scr_alltrue
    rw [List.all_eq_true]
    intro hall
    have hx := hall (applyValidLocal a) (List.mem_map.mpr ⟨a, ha, rfl⟩)
    rw [hv] at hx
    cases hx
  intro res hres
  unfold scr_reddesc_apply at hres
  rw [if_neg hg] at hres
  obtain ⟨a, _, rfl⟩ := List.mem_map.mp hres
  exact ⟨rfl, rfl, rfl⟩

/-- Witness for C4 at a concrete two-rank world: the first rank's file
is incomplete, so neither rank dispatches and both fail. -/
theorem scr_reddesc_apply_no_dispatch_witness :
    (∃ a ∈ C4args, applyValidLocal a = false) ∧
    (∀ res ∈ scr_reddesc_apply C4args,
      res.dispatched = false ∧ res.rc = SCR_FAILURE ∧ res.erFreed = true) :=
  ⟨by decide, scr_reddesc_apply_no_dispatch C4args (by decide)⟩

/-- Claim C7 (amended): whenever the global validity check passes (every
rank's files are complete and added successfully), every rank's `*bytes`
on return equals the world sum of the per-rank file-size accumulations,
whether or not the dispatch succeeded; on the early validity-failure
return, `*bytes` keeps the 0 stored at entry. -/
theorem scr_reddesc_apply_bytes_sum (args : List ApplyArgs) :
    ((∀ a ∈ args, applyValidLocal a = true) →
      ∀ res ∈ scr_reddesc_apply args, res.bytes = (args.map applyMyBytes).sum) ∧
    ((∃ a ∈ args, applyValidLocal a = false) →
      ∀ res ∈ scr_reddesc_apply args, res.bytes = 0) := by
  constructor
  · intro h res hres
    have hg : scr_alltrue (args.map applyValidLocal) = true := by
      unfold scr_alltrue
      rw [List.all_eq_true]
      intro b hb
      obtain ⟨a, ha, rfl⟩ := List.mem_map.mp hb
      exact h a ha
    unfold scr_reddesc_apply at hres
    rw [if_pos hg] at hres
    obtain ⟨a, _, rfl⟩ := List.mem_map.mp hres
    rfl
  · intro h res hres
    have hg : ¬ scr_alltrue (args.map applyValidLocal) = true := by
      obtain ⟨a, ha, hv⟩ := h
      unfold scr_alltrue
      rw [List.all_eq_true]
      intro hall
      have hx := hall (applyValidLocal a) (List.mem_map.mpr ⟨a, ha, rfl⟩)
      rw [hv] at hx
      cases hx
    unfold scr_reddesc_apply at hres
    rw [if_neg hg] at hres
    obtain ⟨a, _, rfl⟩ := List.mem_map.mp hres
    rfl

/-- Claim C7, counterexample: a one-rank world whose only file (100
bytes) is incomplete returns from `scr_reddesc_apply` on the early
validity-failure path with `*bytes = 0`, not the 100-byte sum the claim
asserts for every return. -/
theorem C7_counterexample : ¬ C7Statement C7cexArgs := by
  unfold C7Statement
  decide

/-- The built copy type is the single-node-forced resolution of the TYPE
configuration. -/
theorem build_copy_type_eq (env : Env) (index : Int) (hash : ConfigHash) :
    (scr_reddesc_build_local env index hash).desc.copy_type =
      (forceSingle env (typeResolve env hash).parsed).final := rfl

/-- The recorded pre-force copy type is the TYPE resolution. -/
theorem build_typeBeforeForce_eq (env : Env) (index : Int) (hash : ConfigHash) :
    (scr_reddesc_build_local env index hash).typeBeforeForce =
      (typeResolve env hash).parsed := rfl

/-- The builder's warnings are the three stages' warnings in order. -/
theorem build_warns_eq (env : Env) (index : Int) (hash : ConfigHash) :
    (scr_reddesc_build_local env index hash).warns =
      (storeResolve env hash).warns ++ (typeResolve env hash).warns ++
        (forceSingle env (typeResolve env hash).parsed).warns := rfl

/-- The `ER_Create_Scheme` request is determined by the final copy
type. -/
theorem build_erReq_eq (env : Env) (index : Int) (hash : ConfigHash) :
    (scr_reddesc_build_local env index hash).erReq =
      erRequest env.ranksWorld (forceSingle env (typeResolve env hash).parsed).final := rfl

/-- The stored scheme handle is the oracle's answer to the request. -/
theorem build_er_scheme_eq (env : Env) (index : Int) (hash : ConfigHash) :
    (scr_reddesc_build_local env index hash).desc.er_scheme =
      erSchemeOf env (erRequest env.ranksWorld (forceSingle env (typeResolve env hash).parsed).final) := rfl

/-- The built store index comes from the store resolution. -/
theorem build_store_index_eq (env : Env) (index : Int) (hash : ConfigHash) :
    (scr_reddesc_build_local env index hash).desc.store_index =
      (storeResolve env hash).store_index := rfl

/-- The built enabled flag is the configured value gated by the three
disable paths. -/
theorem build_enabled_eq (env : Env) (index : Int) (hash : ConfigHash) :
    (scr_reddesc_build_local env index hash).desc.enabled =
      finalEnabled hash ((storeResolve env hash).ok && (typeResolve env hash).ok &&
        (erSchemeOf env (erRequest env.ranksWorld (forceSingle env (typeResolve env hash).parsed).final) != -1)) := rfl

/-- The final enabled value is the configured ENABLED (default 1) or
0. -/
theorem finalEnabled_cases (hash : ConfigHash) (b : Bool) :
    finalEnabled hash b = hash.enabled.getD 1 ∨ finalEnabled hash b = 0 := by
  cases b <;> simp [finalEnabled]

/-- A rank's local enabled value is the configured ENABLED or 0. -/
theorem build_enabled_cases (env : Env) (index : Int) (hash : ConfigHash) :
    (scr_reddesc_build_local env index hash).desc.enabled = hash.enabled.getD 1 ∨
    (scr_reddesc_build_local env index hash).desc.enabled = 0 := by
  rw [build_enabled_eq]
  exact finalEnabled_cases hash _

/-- When the STORE key names a store the registry cannot resolve, the
store stage fails with the not-rank-guarded warning. -/
theorem storeResolve_fail (env : Env) (hash : ConfigHash) (s : String)
    (h1 : hash.store = some s) (h2 : env.storeIndexFromName (env.reducePath s) < 0) :
    storeResolve env hash =
      { base := some (env.reducePath s), store_index := -1, ok := false,
        warns := [Warn.storeNotFound] } := by
  unfold storeResolve
  rw [h1]
  dsimp only
  rw [if_neg (by omega)]

/-- When the NODE group spans the world, the force stage rewrites the
type to SINGLE and warns on rank 0 exactly when that changed it. -/
theorem forceSingle_forced (env : Env) (t : CopyType) (g : GroupDesc)
    (h1 : env.groupFromName "NODE" = some g) (h2 : g.ranks = env.ranksWorld) :
    forceSingle env t =
      { final := CopyType.single,
        warns := if env.myRank = 0 ∧ t ≠ CopyType.single then [Warn.forcedSingle] else [] } := by
  unfold forceSingle
  rw [h1]
  dsimp only
  rw [if_pos h2]

/-- The parser's warnings can only be the unknown-copy-type parse
warning. -/
theorem type_from_str_warns (env : Env) (s : String) :
    ∀ wn ∈ (scr_reddesc_type_int_from_str env s).2.2, wn = Warn.unknownCopyTypeParse := by
  unfold scr_reddesc_type_int_from_str
  split_ifs <;> intro wn hw <;> simp at hw
  exact hw

/-- The store stage's warnings can only be the two store warnings. -/
theorem storeResolve_warns_all (env : Env) (hash : ConfigHash) :
    ∀ wn ∈ (storeResolve env hash).warns,
      wn = Warn.storeNotFound ∨ wn = Warn.storeParamMissing := by
  unfold storeResolve
  split
  · dsimp only
    split_ifs <;> intro wn hw <;> simp at hw
    exact Or.inl hw
  · intro wn hw
    simp at hw
    exact Or.inr hw

/-- The type stage's warnings can only be the two copy-type warnings. -/
theorem typeResolve_warns_all (env : Env) (hash : ConfigHash) :
    ∀ wn ∈ (typeResolve env hash).warns,
      wn = Warn.unknownCopyTypeParse ∨ wn = Warn.unknownCopyTypeDesc := by
  unfold typeResolve
  cases ht : hash.type with
  | none => intro wn hw; simp at hw
  | some s =>
    dsimp only
    split_ifs <;> intro wn hw <;> dsimp only at hw
    · exact Or.inl (type_from_str_warns env s wn hw)
    · rcases List.mem_append.mp hw with hw1 | hw2
      · exact Or.inl (type_from_str_warns env s wn hw1)
      · simp at hw2
        exact Or.inr hw2
    · rcases List.mem_append.mp hw with hw1 | hw2
      · exact Or.inl (type_from_str_warns env s wn hw1)
      · simp at hw2

/-- When every rank passes non-NULL arguments, the argument consensus
succeeds. -/
theorem create_guard_true (args : List RankArgs)
    (h0 : ∀ a ∈ args, a.dIn.isSome = true ∧ a.hash.isSome = true) :
    scr_alltrue (args.map (fun a => a.dIn.isSome && a.hash.isSome)) = true := by
  unfold scr_alltrue
  rw [List.all_eq_true]
  intro b hb
  obtain ⟨a, ha, rfl⟩ := List.mem_map.mp hb
  obtain ⟨h1, h2⟩ := h0 a ha
  simp [h1, h2]

/-- On the success path, rank `i`'s result is assembled from its local
build trace: `SCR_SUCCESS`, the trace's warnings, request and pre-force
type, and the descriptor with `enabled` possibly zeroed by the final
consensus. -/
theorem create_success_get (args : List RankArgs) (index : Int)
    (h0 : ∀ a ∈ args, a.dIn.isSome = true ∧ a.hash.isSome = true) :
    ∀ i a res, args.get? i = some a →
      (scr_reddesc_create_from_hash args index).get? i = some res →
      ∃ t, scr_reddesc_build_local a.env index (a.hash.getD emptyHash) = t ∧
        res.rc = SCR_SUCCESS ∧ res.warns = t.warns ∧ res.erReq = t.erReq ∧
        res.typeBeforeForce = some t.typeBeforeForce ∧
        (res.dOut = some t.desc ∨ res.dOut = some { t.desc with enabled := 0 }) := by
  intro i a res ha hres
  refine ⟨scr_reddesc_build_local a.env index (a.hash.getD emptyHash), rfl, ?_⟩
  unfold scr_reddesc_create_from_hash at hres
  rw [if_pos (create_guard_true args h0)] at hres
  unfold buildTraces at hres
  rw [List.get?_map, List.get?_map, ha, Option.map_some', Option.map_some'] at hres
  obtain rfl := Option.some.inj hres
  refine ⟨rfl, rfl, rfl, rfl, ?_⟩
  cases hC : createConsensus args index
  · right
    simp [hC]
  · left
    simp [hC]

/-- On the argument-consensus failure path, every rank returns
`SCR_FAILURE` and clears `enabled` through its descriptor pointer. -/
theorem create_failure_get (args : List RankArgs) (index : Int)
    (hbad : ¬ scr_alltrue (args.map (fun a => a.dIn.isSome && a.hash.isSome)) = true) :
    ∀ i a res, args.get? i = some a →
      (scr_reddesc_create_from_hash args index).get? i = some res →
      res.rc = SCR_FAILURE ∧ res.dOut = a.dIn.map (fun d => { d with enabled := 0 }) := by
  intro i a res ha hres
  unfold scr_reddesc_create_from_hash at hres
  rw [if_neg hbad, List.get?_map, ha, Option.map_some'] at hres
  obtain rfl := Option.some.inj hres
  exact ⟨rfl, rfl⟩

/-- Claim C9: when every rank passes a non-NULL descriptor and hash,
`scr_reddesc_create_from_hash` returns `SCR_SUCCESS` on every rank,
whatever the final enabled state of the descriptor; `SCR_FAILURE` is
returned only when some rank passed a NULL argument, in which case every
rank returns `SCR_FAILURE` and clears `enabled` through any non-NULL
descriptor pointer before returning. -/
theorem scr_reddesc_create_from_hash_status (args : List RankArgs) (index : Int) :
    ((∀ a ∈ args, a.dIn.isSome = true ∧ a.hash.isSome = true) →
      ∀ i a res, args.get? i = some a →
        (scr_reddesc_create_from_hash args index).get? i = some res →
        res.rc = SCR_SUCCESS) ∧
    ((∃ a ∈ args, a.dIn.isSome = false ∨ a.hash.isSome = false) →
      ∀ i a res, args.get? i = some a →
        (scr_reddesc_create_from_hash args index).get? i = some res →
        res.rc = SCR_FAILURE ∧
        res.dOut = a.dIn.map (fun d => { d with enabled := 0 })) := by
  constructor
  · intro h0 i a res ha hres
    obtain ⟨t, _, hrc, _⟩ := create_success_get args index h0 i a res ha hres
    exact hrc
  · intro ⟨a0, ha0, hbad0⟩ i a res ha hres
    have hbad : ¬ scr_alltrue (args.map (fun a => a.dIn.isSome && a.hash.isSome)) = true := by
      unfold scr_alltrue
      rw [List.all_eq_true]
      intro hall
      have hx := hall (a0.dIn.isSome && a0.hash.isSome) (List.mem_map.mpr ⟨a0, ha0, rfl⟩)
      rcases hbad0 with h | h <;> rw [h] at hx <;> simp at hx
    exact create_failure_get args index hbad i a res ha hres

/-- Precise form of the success path: rank `i`'s result is exactly its
local trace with `enabled` gated by the final consensus. -/
theorem create_success_get_precise (args : List RankArgs) (index : Int)
    (h0 : ∀ a ∈ args, a.dIn.isSome = true ∧ a.hash.isSome = true) :
    ∀ i res, (scr_reddesc_create_from_hash args index).get? i = some res →
      ∃ a t, args.get? i = some a ∧
        scr_reddesc_build_local a.env index (a.hash.getD emptyHash) = t ∧
        res.rc = SCR_SUCCESS ∧ res.warns = t.warns ∧ res.erReq = t.erReq ∧
        res.typeBeforeForce = some t.typeBeforeForce ∧
        res.dOut = some (if createConsensus args index then t.desc
                         else { t.desc with enabled := 0 }) := by
  intro i res hres
  unfold scr_reddesc_create_from_hash at hres
  rw [if_pos (create_guard_true args h0)] at hres
  unfold buildTraces at hres
  rw [List.get?_map, List.get?_map] at hres
  cases hA : args.get? i with
  | none =>
    rw [hA] at hres
    simp at hres
  | some a =>
    rw [hA, Option.map_some', Option.map_some'] at hres
    obtain rfl := Option.some.inj hres
    exact ⟨a, _, rfl, rfl, rfl, rfl, rfl, rfl, rfl⟩

/-- A rank's local trace is a member of the world's trace list. -/
theorem build_mem_traces (args : List RankArgs) (index : Int) (i : Nat) (a : RankArgs)
    (hA : args.get? i = some a) :
    scr_reddesc_build_local a.env index (a.hash.getD emptyHash) ∈ buildTraces args index := by
  unfold buildTraces
  exact List.mem_map.mpr ⟨a, List.get?_mem hA, rfl⟩

/-- Claim C2: when `scr_reddesc_create_from_hash` is called with the
same index and configuration (and non-NULL arguments) on every rank, the
`enabled` field of the resulting descriptor is identical on every rank;
and if any rank disables the descriptor during its local construction,
the final `scr_alltrue` reduction clears `enabled` on every rank. -/
theorem scr_reddesc_create_from_hash_consensus (args : List RankArgs) (index : Int)
    (h : ConfigHash)
    (hsame : ∀ a ∈ args, a.dIn.isSome = true ∧ a.hash = some h) :
    (∃ e, ∀ i res, (scr_reddesc_create_from_hash args index).get? i = some res →
        ∃ d, res.dOut = some d ∧ d.enabled = e) ∧
    ((∃ a ∈ args, (scr_reddesc_build_local a.env index h).desc.enabled = 0) →
      ∀ i res, (scr_reddesc_create_from_hash args index).get? i = some res →
        ∃ d, res.dOut = some d ∧ d.enabled = 0) := by
  have h0 : ∀ a ∈ args, a.dIn.isSome = true ∧ a.hash.isSome = true := by
    intro a ha
    obtain ⟨h1, h2⟩ := hsame a ha
    exact ⟨h1, by rw [h2]; rfl⟩
  have hgetD : ∀ a ∈ args, a.hash.getD emptyHash = h := by
    intro a ha
    rw [(hsame a ha).2]
    rfl
  constructor
  · cases hC : createConsensus args index
    · refine ⟨0, ?_⟩
      intro i res hres
      obtain ⟨a, t, hA, ht, _, _, _, _, hd⟩ :=
        create_success_get_precise args index h0 i res hres
      rw [hC] at hd
      exact ⟨{ t.desc with enabled := 0 }, by simpa using hd, rfl⟩
    · refine ⟨h.enabled.getD 1, ?_⟩
      intro i res hres
      obtain ⟨a, t, hA, ht, _, _, _, _, hd⟩ :=
        create_success_get_precise args index h0 i res hres
      rw [hC] at hd
      refine ⟨t.desc, by simpa using hd, ?_⟩
      have hmem := build_mem_traces args index i a hA
      rw [ht] at hmem
      have hne : t.desc.enabled ≠ 0 := by
        unfold createConsensus scr_alltrue at hC
        rw [List.all_eq_true] at hC
        have hx := hC (t.desc.enabled != 0) (List.mem_map.mpr ⟨t, hmem, rfl⟩)
        simpa using hx
      have hcases := build_enabled_cases a.env index (a.hash.getD emptyHash)
      rw [ht] at hcases
      rw [hgetD a (List.get?_mem hA)] at hcases
      rcases hcases with hcase | hcase
      · exact hcase
      · exact absurd hcase hne
  · intro ⟨a0, ha0, hzero⟩ i res hres
    have hC : createConsensus args index = false := by
      cases hC2 : createConsensus args index
      · rfl
      · exfalso
        unfold createConsensus scr_alltrue at hC2
        rw [List.all_eq_true] at hC2
        have hmem1 : scr_reddesc_build_local a0.env index (a0.hash.getD emptyHash) ∈
            buildTraces args index := by
          unfold buildTraces
          exact List.mem_map.mpr ⟨a0, ha0, rfl⟩
        have hx := hC2
          ((scr_reddesc_build_local a0.env index (a0.hash.getD emptyHash)).desc.enabled != 0)
          (List.mem_map.mpr ⟨_, hmem1, rfl⟩)
        rw [hgetD a0 ha0] at hx
        rw [hzero] at hx
        simp at hx
    obtain ⟨a, t, hA, ht, _, _, _, _, hd⟩ :=
      create_success_get_precise args index h0 i res hres
    rw [hC] at hd
    exact ⟨{ t.desc with enabled := 0 }, by simpa using hd, rfl⟩

/-- Witness for C2 at a concrete two-rank world with a shared
configuration: rank 1's scheme build fails, so both ranks agree on
`enabled = 0`. -/
theorem scr_reddesc_create_from_hash_consensus_witness :
    (∀ a ∈ C2args, a.dIn.isSome = true ∧ a.hash = some C2hash) ∧
    ((∃ e, ∀ i res, (scr_reddesc_create_from_hash C2args 0).get? i = some res →
        ∃ d, res.dOut = some d ∧ d.enabled = e) ∧
     ((∃ a ∈ C2args, (scr_reddesc_build_local a.env 0 C2hash).desc.enabled = 0) →
       ∀ i res, (scr_reddesc_create_from_hash C2args 0).get? i = some res →
         ∃ d, res.dOut = some d ∧ d.enabled = 0)) := by
  have hs : ∀ a ∈ C2args, a.dIn.isSome = true ∧ a.hash = some C2hash := by
    intro a ha
    rcases List.mem_cons.mp ha with rfl | ha
    · exact ⟨rfl, rfl⟩
    · rcases List.mem_cons.mp ha with rfl | ha
      · exact ⟨rfl, rfl⟩
      · exact absurd ha (List.not_mem_nil a)
  exact ⟨hs, scr_reddesc_create_from_hash_consensus C2args 0 C2hash hs⟩

/-- Claim C3 (amended): the `ER_Create_Scheme` request is determined by
the final copy type alone: Single requests redundancy 0, Partner
requests the world size, Xor requests the constant 1 — not the
configured SET_SIZE, which is read but never passed — and no request is
made for the null copy type. -/
theorem scr_reddesc_build_local_er_request (env : Env) (index : Int) (hash : ConfigHash) :
    ((scr_reddesc_build_local env index hash).desc.copy_type = CopyType.single →
      (scr_reddesc_build_local env index hash).erReq = some (env.ranksWorld, 0)) ∧
    ((scr_reddesc_build_local env index hash).desc.copy_type = CopyType.partner →
      (scr_reddesc_build_local env index hash).erReq = some (env.ranksWorld, env.ranksWorld)) ∧
    ((scr_reddesc_build_local env index hash).desc.copy_type = CopyType.xor →
      (scr_reddesc_build_local env index hash).erReq = some (env.ranksWorld, 1)) ∧
    ((scr_reddesc_build_local env index hash).desc.copy_type = CopyType.null →
      (scr_reddesc_build_local env index hash).erReq = none) := by
  rw [build_copy_type_eq, build_erReq_eq]
  generalize (forceSingle env (typeResolve env hash).parsed).final = t
  cases t <;> simp [erRequest]

/-- Claim C3, counterexample: an eight-rank world configured with
`TYPE = XOR` and `SET_SIZE = 4` builds an Xor descriptor whose scheme
request is `(8, 1)`, not the `(8, 4)` the claim's set-size
parameterization asserts. -/
theorem C3_counterexample : ¬ C3Statement C3env 0 C3hash := by
  unfold C3Statement
  decide

/-- A failed store lookup disables the descriptor, leaves the store
index at −1, and emits the store warning on the calling rank. -/
theorem build_store_fail (env : Env) (index : Int) (hash : ConfigHash) (s : String)
    (h1 : hash.store = some s) (h2 : env.storeIndexFromName (env.reducePath s) < 0) :
    (scr_reddesc_build_local env index hash).desc.enabled = 0 ∧
    (scr_reddesc_build_local env index hash).desc.store_index = -1 ∧
    Warn.storeNotFound ∈ (scr_reddesc_build_local env index hash).warns := by
  have hsr := storeResolve_fail env hash s h1 h2
  refine ⟨?_, ?_, ?_⟩
  · rw [build_enabled_eq, hsr]
    simp [finalEnabled]
  · rw [build_store_index_eq, hsr]
  · rw [build_warns_eq, hsr]
    simp

/-- Claim C5 (amended): when the configured STORE cannot be resolved on
any rank, `scr_reddesc_create_from_hash` disables the descriptor on
every rank (store index −1) and every rank that fails the lookup emits
the warning (the call is not rank-0 gated); the erasure scheme is
nevertheless requested according to the copy type, and `er_scheme` holds
whatever handle `ER_Create_Scheme` returned, not −1. -/
theorem scr_reddesc_create_from_hash_unknown_store (args : List RankArgs) (index : Int)
    (h0 : ∀ a ∈ args, a.dIn.isSome = true ∧ a.hash.isSome = true)
    (hs : ∀ a ∈ args, ∃ s, (a.hash.getD emptyHash).store = some s ∧
        a.env.storeIndexFromName (a.env.reducePath s) < 0) :
    ∀ i a res, args.get? i = some a →
      (scr_reddesc_create_from_hash args index).get? i = some res →
      ∃ d, res.dOut = some d ∧ d.enabled = 0 ∧ d.store_index = -1 ∧
        Warn.storeNotFound ∈ res.warns ∧
        res.erReq = erRequest a.env.ranksWorld d.copy_type ∧
        d.er_scheme = erSchemeOf a.env res.erReq := by
  intro i a res ha hres
  obtain ⟨t, ht, _, hwarns, herq, _, hd⟩ := create_success_get args index h0 i a res ha hres
  obtain ⟨s, hs1, hs2⟩ := hs a (List.get?_mem ha)
  obtain ⟨hen, hsi, hwmem⟩ := build_store_fail a.env index (a.hash.getD emptyHash) s hs1 hs2
  rw [ht] at hen hsi hwmem
  rcases hd with hd | hd
  · refine ⟨t.desc, hd, hen, hsi, ?_, ?_, ?_⟩
    · rw [hwarns]
      exact hwmem
    · show res.erReq = erRequest a.env.ranksWorld t.desc.copy_type
      rw [herq, ← ht, build_erReq_eq, build_copy_type_eq]
    · show t.desc.er_scheme = erSchemeOf a.env res.erReq
      rw [herq, ← ht, build_er_scheme_eq, build_erReq_eq]
  · refine ⟨{ t.desc with enabled := 0 }, hd, rfl, ?_, ?_, ?_, ?_⟩
    · show t.desc.store_index = -1
      exact hsi
    · rw [hwarns]
      exact hwmem
    · show res.erReq = erRequest a.env.ranksWorld t.desc.copy_type
      rw [herq, ← ht, build_erReq_eq, build_copy_type_eq]
    · show t.desc.er_scheme = erSchemeOf a.env res.erReq
      rw [herq, ← ht, build_er_scheme_eq, build_erReq_eq]

/-- Witness for C5 (amended) at a concrete two-rank world whose store
lookup fails everywhere and whose `ER_Create_Scheme` returns 7. -/
theorem scr_reddesc_create_from_hash_unknown_store_witness :
    (∀ a ∈ C5args, a.dIn.isSome = true ∧ a.hash.isSome = true) ∧
    (∀ a ∈ C5args, ∃ s, (a.hash.getD emptyHash).store = some s ∧
        a.env.storeIndexFromName (a.env.reducePath s) < 0) ∧
    (∀ i a res, C5args.get? i = some a →
      (scr_reddesc_create_from_hash C5args 0).get? i = some res →
      ∃ d, res.dOut = some d ∧ d.enabled = 0 ∧ d.store_index = -1 ∧
        Warn.storeNotFound ∈ res.warns ∧
        res.erReq = erRequest a.env.ranksWorld d.copy_type ∧
        d.er_scheme = erSchemeOf a.env res.erReq) := by
  have h0 : ∀ a ∈ C5args, a.dIn.isSome = true ∧ a.hash.isSome = true := by
    intro a ha
    rcases List.mem_cons.mp ha with rfl | ha
    · exact ⟨rfl, rfl⟩
    · rcases List.mem_cons.mp ha with rfl | ha
      · exact ⟨rfl, rfl⟩
      · exact absurd ha (List.not_mem_nil a)
  have hs : ∀ a ∈ C5args, ∃ s, (a.hash.getD emptyHash).store = some s ∧
      a.env.storeIndexFromName (a.env.reducePath s) < 0 := by
    intro a ha
    rcases List.mem_cons.mp ha with rfl | ha
    · exact ⟨"/no/such/path", rfl, by decide⟩
    · rcases List.mem_cons.mp ha with rfl | ha
      · exact ⟨"/no/such/path", rfl, by decide⟩
      · exact absurd ha (List.not_mem_nil a)
  exact ⟨h0, hs, scr_reddesc_create_from_hash_unknown_store C5args 0 h0 hs⟩

/-- Claim C5, counterexample: with the unresolvable STORE
`/no/such/path` on both ranks and an `ER_Create_Scheme` oracle returning
handle 7, rank 0's descriptor comes back with `er_scheme = 7`: the
builder still allocates the erasure scheme after the failed store
lookup, contradicting the claim's "er_scheme remains −1 /
unallocated". -/
theorem C5_counterexample : ¬ C5Statement C5args 0 := by
  intro hC5
  have hhyp : ∀ a ∈ C5args, ∃ s, (a.hash.getD emptyHash).store = some s ∧
      a.env.storeIndexFromName (a.env.reducePath s) < 0 := by
    intro a ha
    rcases List.mem_cons.mp ha with rfl | ha
    · exact ⟨"/no/such/path", rfl, by decide⟩
    · rcases List.mem_cons.mp ha with rfl | ha
      · exact ⟨"/no/such/path", rfl, by decide⟩
      · exact absurd ha (List.not_mem_nil a)
  have hget : (scr_reddesc_create_from_hash C5args 0).get? 0 =
      some (scr_reddesc_create_from_hash C5args 0).headI := rfl
  obtain ⟨d, hd, _, hscheme⟩ := hC5 hhyp _ (List.get?_mem hget)
  have h7 : Option.map (fun d => d.er_scheme)
      ((scr_reddesc_create_from_hash C5args 0).headI.dOut) = some 7 := rfl
  rw [hd] at h7
  simp at h7
  rw [hscheme] at h7
  exact absurd h7 (by decide)

/-- When the NODE group spans the world, the built copy type is SINGLE
and the rank-0 warning is emitted exactly when the configured type was
overwritten. -/
theorem build_single_node (env : Env) (index : Int) (hash : ConfigHash) (g : GroupDesc)
    (h1 : env.groupFromName "NODE" = some g) (h2 : g.ranks = env.ranksWorld) :
    (scr_reddesc_build_local env index hash).desc.copy_type = CopyType.single ∧
    (Warn.forcedSingle ∈ (scr_reddesc_build_local env index hash).warns ↔
      (env.myRank = 0 ∧ (scr_reddesc_build_local env index hash).typeBeforeForce ≠ CopyType.single)) := by
  have hf := forceSingle_forced env (typeResolve env hash).parsed g h1 h2
  constructor
  · rw [build_copy_type_eq, hf]
  · rw [build_warns_eq, build_typeBeforeForce_eq, hf]
    constructor
    · intro hmem
      rcases List.mem_append.mp hmem with hmem1 | hmem2
      · rcases List.mem_append.mp hmem1 with ha | hb
        · rcases storeResolve_warns_all env hash _ ha with h | h <;> exact absurd h (by decide)
        · rcases typeResolve_warns_all env hash _ hb with h | h <;> exact absurd h (by decide)
      · split_ifs at hmem2 with hc
        · exact hc
        · simp at hmem2
    · intro hc
      rw [if_pos hc]
      simp

/-- Claim C6: when the NODE failure group has as many ranks as the
world, every descriptor built by `scr_reddesc_create_from_hash` has copy
type Single regardless of the configured TYPE, and rank 0 emits the
forced-single warning exactly when this overwrote a configured type
different from Single. -/
theorem scr_reddesc_create_from_hash_single_node (args : List RankArgs) (index : Int)
    (h0 : ∀ a ∈ args, a.dIn.isSome = true ∧ a.hash.isSome = true)
    (hg : ∀ a ∈ args, ∃ g, a.env.groupFromName "NODE" = some g ∧
        g.ranks = a.env.ranksWorld) :
    ∀ i a res, args.get? i = some a →
      (scr_reddesc_create_from_hash args index).get? i = some res →
      ∃ d t, res.dOut = some d ∧ d.copy_type = CopyType.single ∧
        res.typeBeforeForce = some t ∧
        (Warn.forcedSingle ∈ res.warns ↔ (a.env.myRank = 0 ∧ t ≠ CopyType.single)) := by
  intro i a res ha hres
  obtain ⟨t, ht, _, hwarns, _, htb, hd⟩ := create_success_get args index h0 i a res ha hres
  obtain ⟨g, hg1, hg2⟩ := hg a (List.get?_mem ha)
  obtain ⟨hct, hiff⟩ := build_single_node a.env index (a.hash.getD emptyHash) g hg1 hg2
  rw [ht] at hct hiff
  rcases hd with hd | hd
  · refine ⟨t.desc, t.typeBeforeForce, hd, hct, htb, ?_⟩
    rw [hwarns]
    exact hiff
  · refine ⟨{ t.desc with enabled := 0 }, t.typeBeforeForce, hd, ?_, htb, ?_⟩
    · show t.desc.copy_type = CopyType.single
      exact hct
    · rw [hwarns]
      exact hiff

/-- Witness for C6 at a concrete two-rank single-node world with
PARTNER as the configured default type: both ranks build SINGLE
descriptors, and only rank 0 warns. -/
theorem scr_reddesc_create_from_hash_single_node_witness :
    (∀ a ∈ C6args, a.dIn.isSome = true ∧ a.hash.isSome = true) ∧
    (∀ a ∈ C6args, ∃ g, a.env.groupFromName "NODE" = some g ∧
        g.ranks = a.env.ranksWorld) ∧
    (∀ i a res, C6args.get? i = some a →
      (scr_reddesc_create_from_hash C6args 0).get? i = some res →
      ∃ d t, res.dOut = some d ∧ d.copy_type = CopyType.single ∧
        res.typeBeforeForce = some t ∧
        (Warn.forcedSingle ∈ res.warns ↔ (a.env.myRank = 0 ∧ t ≠ CopyType.single))) := by
  have h0 : ∀ a ∈ C6args, a.dIn.isSome = true ∧ a.hash.isSome = true := by
    intro a ha
    rcases List.mem_cons.mp ha with rfl | ha
    · exact ⟨rfl, rfl⟩
    · rcases List.mem_cons.mp ha with rfl | ha
      · exact ⟨rfl, rfl⟩
      · exact absurd ha (List.not_mem_nil a)
  have hg : ∀ a ∈ C6args, ∃ g, a.env.groupFromName "NODE" = some g ∧
      g.ranks = a.env.ranksWorld := by
    intro a ha
    rcases List.mem_cons.mp ha with rfl | ha
    · exact ⟨{ ranks := 2, rank := 0 }, rfl, rfl⟩
    · rcases List.mem_cons.mp ha with rfl | ha
      · exact ⟨{ ranks := 2, rank := 1 }, rfl, rfl⟩
      · exact absurd ha (List.not_mem_nil a)
  exact ⟨h0, hg, scr_reddesc_create_from_hash_single_node C6args 0 h0 hg⟩
